import Mathlib

/-!
# Verification of the SimpleRS recommendation engine

Shallow embedding, in Lean 4, of the scoring, collaborative-filtering,
rule and persistence code of the SimpleRS repository
(`batch/pipeline/final_candidate.py`, `batch/utils/cf_utils.py`,
`batch/utils/db_manager.py`, `api/rules/pre_filter_rules.py`,
`api/rules/post_reorder_rules.py`, `api/services/recommendation_service.py`),
together with proofs and refutations of the specification's claims.

Conventions of the embedding:
* Python floats are modelled as rationals (`ℚ`); every float operation the
  claims mention (addition, multiplication by constant factors, comparison)
  is exact on the values involved, so nothing is lost.
* Python `dict`s preserve insertion order, so a dict is modelled as the
  association list of its entries in insertion order.
* A Python `set` iterates in an arbitrary, hash-dependent order; wherever the
  code iterates over a set we abstract the iteration order as an explicit
  list parameter (with no duplicates).  A property of the code holds only if
  it holds for every such order.
* `list.sort(key=..., reverse=True)` is a stable sort by descending key.
  Any two stable sorts with respect to the same total preorder agree, so it
  is modelled by `List.insertionSort` with the "score not below" relation,
  which Mathlib proves stable, sorted and a permutation of its input.
-/

namespace SimpleRS

abbrev ItemId := String
abbrev UserId := String
abbrev Score := ℚ

/-- The relation "the score of `a` is not below the score of `b`":
sorting with it is exactly Python's stable
`list.sort(key=lambda x: x[1], reverse=True)`. -/
def scoreGE (a b : ItemId × Score) : Prop := b.2 ≤ a.2

instance : DecidableRel scoreGE := fun a b => inferInstanceAs (Decidable (b.2 ≤ a.2))

instance : IsTotal (ItemId × Score) scoreGE := ⟨fun a b => le_total b.2 a.2⟩

instance : IsTrans (ItemId × Score) scoreGE := ⟨fun _ _ _ h h' => le_trans h' h⟩

/-- Stable sort by score, descending (Python `xs.sort(key=lambda x: x[1], reverse=True)`). -/
def sortByScoreDesc (l : List (ItemId × Score)) : List (ItemId × Score) :=
  List.insertionSort scoreGE l

/-- "Sorted in descending order of score". -/
def ScoreSortedDesc (l : List (ItemId × Score)) : Prop := List.Sorted scoreGE l

instance (l : List (ItemId × Score)) : Decidable (ScoreSortedDesc l) :=
  inferInstanceAs (Decidable (List.Pairwise scoreGE l))

theorem sortByScoreDesc_perm (l : List (ItemId × Score)) : (sortByScoreDesc l).Perm l :=
  List.perm_insertionSort scoreGE l

theorem sortByScoreDesc_sorted (l : List (ItemId × Score)) :
    ScoreSortedDesc (sortByScoreDesc l) :=
  List.sorted_insertionSort scoreGE l

/-! ## Collaborative filtering (`batch/utils/cf_utils.py`)

`build_item_similarity` receives `user_interactions : {user_id: [item_id, ...]}`
(one entry per user: a Python dict has unique keys) and, in the production
`"jaccard"` branch, fills `similarity_data` by iterating over all pairs
`(i, j)` of items that have at least one interacting user, **including**
`j = i` (`for j in range(i, ...)`), storing `|users(i) ∩ users(j)| /
|users(i) ∪ users(j)|` whenever the intersection count is at least
`CF_MIN_CO_OCCURRENCE`, the union is nonempty and the similarity is
positive; for `j ≠ i` the value is stored symmetrically.  We embed the
resulting map extensionally: the stored value of the pair `(i, j)` does not
depend on the dict iteration orders. -/

/-- The distinct users who interacted with `item`
(the set `item_user_sets[item]`; a user's duplicate interactions count once
because the source iterates over `set(items)`). -/
def usersOf (interactions : List (UserId × List ItemId)) (item : ItemId) : List UserId :=
  (((interactions.filter (fun p => item ∈ p.2))).map Prod.fst).dedup

/-- `|users(i) ∩ users(j)|` (`intersection_count` in the source). -/
def coOccurrence (interactions : List (UserId × List ItemId)) (i j : ItemId) : ℕ :=
  ((usersOf interactions i).inter (usersOf interactions j)).length

/-- `|users(i) ∪ users(j)|` (`union_count` in the source). -/
def unionCount (interactions : List (UserId × List ItemId)) (i j : ItemId) : ℕ :=
  ((usersOf interactions i).union (usersOf interactions j)).length

/-- The Jaccard similarity entry stored for the pair `(i, j)` by
`build_item_similarity` (metric `"jaccard"`, `all_item_ids = None`):
`none` means no entry is stored.  Both items must occur in
`item_user_sets` (i.e. have at least one interacting user), the
intersection count must reach `min_co_occurrence`, the union must be
nonempty and the similarity must be positive. -/
def build_item_similarity (interactions : List (UserId × List ItemId))
    (minCoOccurrence : ℕ) (i j : ItemId) : Option ℚ :=
  if usersOf interactions i = [] then none
  else if usersOf interactions j = [] then none
  else if minCoOccurrence ≤ coOccurrence interactions i j then
    if 0 < unionCount interactions i j then
      let sim : ℚ := (coOccurrence interactions i j : ℚ) / (unionCount interactions i j : ℚ)
      if 0 < sim then some sim else none
    else none
  else none

/-- The state the CF module keeps in its globals after a successful build:
the stored similarity entries and the item universe `item_id_map_cf`
(with `all_item_ids = None` this is the set of all interacted items).
`none` models `item_similarity_matrix is None` (build never ran or failed). -/
structure CFModel where
  sim : ItemId → ItemId → Option ℚ
  itemIds : List ItemId

/-- All items occurring in some user's interaction list
(`unique_item_ids` in the `all_item_ids = None` branch; the source sorts
them but only membership matters downstream). -/
def allInteractedItems (interactions : List (UserId × List ItemId)) : List ItemId :=
  (interactions.foldr (fun p acc => p.2 ++ acc) []).dedup

/-- The module state after `build_item_similarity(interactions)` with the
`"jaccard"` metric: the build returns `False` (leaving the matrix unset)
when there are no interactions or no interacted items. -/
def buildCFModel (interactions : List (UserId × List ItemId))
    (minCoOccurrence : ℕ) : Option CFModel :=
  if interactions = [] then none
  else if allInteractedItems interactions = [] then none
  else some ⟨build_item_similarity interactions minCoOccurrence,
             allInteractedItems interactions⟩

/-- Dict lookup with default `0.0` (`scores.get(item_id, 0.0)`). -/
def lookupScore (l : List (ItemId × ℚ)) (item : ItemId) : ℚ :=
  match l.find? (fun p => p.1 = item) with
  | some p => p.2
  | none => 0

/-- `get_collaborative_filtering_scores(user_history_item_ids, candidate_item_ids)`.

The source returns `{}` when the history or the candidate set is empty or
the matrix was never built.  Otherwise it takes the **tail** slice
`user_history_item_ids[-CF_USER_HISTORY_LIMIT:]`, keeps the distinct
history items that are in `item_id_map_cf` (`user_interacted_indices`, a
set), and for each candidate that is in the map sums the stored positive
similarities with those history items, recording
`max(0.0, total)` only when at least one positive similarity was found
(`count > 0`; a candidate without a row in the matrix finds none).
`candidates` is the iteration order of the candidate set. -/
def get_collaborative_filtering_scores (model : Option CFModel) (historyLimit : ℕ)
    (history : List ItemId) (candidates : List ItemId) : List (ItemId × ℚ) :=
  match model with
  | none => []
  | some m =>
    if history = [] then []
    else if candidates = [] then []
    else
      let recent := history.drop (history.length - historyLimit)
      let validHistory := (recent.filter (fun i => i ∈ m.itemIds)).dedup
      if validHistory = [] then []
      else
        candidates.filterMap (fun c =>
          if c ∈ m.itemIds then
            let contribs := validHistory.filterMap (fun h =>
              match m.sim c h with
              | some s => if 0 < s then some s else none
              | none => none)
            if contribs = [] then none
            else some (c, max 0 contribs.sum)
          else none)

lemma list_inter_self {α : Type} [DecidableEq α] (l : List α) : l.inter l = l := by
  simp [List.inter]

lemma list_union_eq_right {α : Type} [DecidableEq α] {l₁ l₂ : List α}
    (h : ∀ a ∈ l₁, a ∈ l₂) : l₁.union l₂ = l₂ := by
  induction l₁ with
  | nil => rfl
  | cons a t ih =>
    have ha : a ∈ l₂ := h a (List.mem_cons_self a t)
    have ht : ∀ b ∈ t, b ∈ l₂ := fun b hb => h b (List.mem_cons_of_mem a hb)
    simp only [List.union, List.foldr_cons]
    have : t.union l₂ = l₂ := ih ht
    simp only [List.union] at this
    rw [this, List.insert_of_mem ha]

lemma coOccurrence_self (ui : List (UserId × List ItemId)) (i : ItemId) :
    coOccurrence ui i i = (usersOf ui i).length := by
  simp [coOccurrence, list_inter_self]

lemma unionCount_self (ui : List (UserId × List ItemId)) (i : ItemId) :
    unionCount ui i i = (usersOf ui i).length := by
  simp [unionCount, list_union_eq_right (fun a ha => ha)]

lemma unionCount_pos (ui : List (UserId × List ItemId)) {i : ItemId} (j : ItemId)
    (h : usersOf ui i ≠ []) : 0 < unionCount ui i j := by
  obtain ⟨u, hu⟩ := List.exists_mem_of_ne_nil _ h
  have : u ∈ (usersOf ui i).union (usersOf ui j) := List.mem_union_left hu _
  have hne : (usersOf ui i).union (usersOf ui j) ≠ [] := List.ne_nil_of_mem this
  exact List.length_pos.mpr hne

/-- Closed form of the stored-entry map: a pair is present exactly when both
items have interacting users and the co-occurrence count reaches both
`min_co_occurrence` and `1`, and then the entry is `|∩| / |∪|`. -/
lemma build_item_similarity_eq_ite (ui : List (UserId × List ItemId))
    (minCo : ℕ) (i j : ItemId) :
    build_item_similarity ui minCo i j =
      if usersOf ui i ≠ [] ∧ usersOf ui j ≠ [] ∧
          minCo ≤ coOccurrence ui i j ∧ 1 ≤ coOccurrence ui i j
      then some ((coOccurrence ui i j : ℚ) / (unionCount ui i j : ℚ))
      else none := by
  unfold build_item_similarity
  by_cases h1 : usersOf ui i = []
  · simp [h1]
  by_cases h2 : usersOf ui j = []
  · simp [h1, h2]
  have hu : 0 < unionCount ui i j := unionCount_pos ui j h1
  by_cases h3 : minCo ≤ coOccurrence ui i j
  · by_cases h4 : 1 ≤ coOccurrence ui i j
    · have hpos : (0 : ℚ) < (coOccurrence ui i j : ℚ) / (unionCount ui i j : ℚ) :=
        div_pos (by exact_mod_cast h4) (by exact_mod_cast hu)
      simp [h1, h2, h3, h4, hu, hpos]
    · have hco : coOccurrence ui i j = 0 := by omega
      have hnpos : ¬ (0 : ℚ) < (coOccurrence ui i j : ℚ) / (unionCount ui i j : ℚ) := by
        rw [hco]; simp
      simp [h1, h2, h3, h4, hu, hnpos]
  · simp [h1, h2, h3]

/-- C4 (amended): the Jaccard builder emits a pair `(i, j)` exactly when both
items have at least one interacting user and the co-occurrence count is at
least `max(MIN_CO_OCCURRENCE, 1)`; every emitted similarity equals
`|users(i) ∩ users(j)| / |users(i) ∪ users(j)|`; and — contrary to the
original claim — a self-pair `(i, i)` **is** emitted, with similarity `1`,
whenever item `i` has at least `MIN_CO_OCCURRENCE` (and at least one)
interacting users. -/
theorem build_item_similarity_spec (ui : List (UserId × List ItemId))
    (minCo : ℕ) (i j : ItemId) :
    (∀ q, build_item_similarity ui minCo i j = some q →
        q = (coOccurrence ui i j : ℚ) / (unionCount ui i j : ℚ))
    ∧ ((build_item_similarity ui minCo i j).isSome ↔
        (usersOf ui i ≠ [] ∧ usersOf ui j ≠ [] ∧
          minCo ≤ coOccurrence ui i j ∧ 1 ≤ coOccurrence ui i j))
    ∧ (usersOf ui i ≠ [] → minCo ≤ (usersOf ui i).length →
        build_item_similarity ui minCo i i = some 1) := by
  refine ⟨?_, ?_, ?_⟩
  · intro q hq
    rw [build_item_similarity_eq_ite] at hq
    split_ifs at hq
    simp only [Option.some.injEq] at hq
    exact hq.symm
  · rw [build_item_similarity_eq_ite]
    split_ifs with h
    · simpa using h
    · simpa using h
  · intro hne hco
    have hlen : 0 < (usersOf ui i).length := List.length_pos.mpr hne
    rw [build_item_similarity_eq_ite, coOccurrence_self, unionCount_self,
      if_pos ⟨hne, hne, hco, hlen⟩]
    have hq : ((usersOf ui i).length : ℚ) ≠ 0 := by
      exact_mod_cast Nat.pos_iff_ne_zero.mp hlen
    rw [div_self hq]

/-- C4 counterexample: with interactions `{u1: [i1], u2: [i1]}` and
`MIN_CO_OCCURRENCE = 2`, the builder emits the self-pair `(i1, i1)` with
similarity `1`, so "no self-pair `(i, i)` is ever emitted" is false. -/
theorem build_item_similarity_self_pair_counterexample :
    build_item_similarity [("u1", ["i1"]), ("u2", ["i1"])] 2 "i1" "i1" = some 1 := by
  rw [build_item_similarity_eq_ite]
  have hco : coOccurrence [("u1", ["i1"]), ("u2", ["i1"])] "i1" "i1" = 2 := by decide
  have huc : unionCount [("u1", ["i1"]), ("u2", ["i1"])] "i1" "i1" = 2 := by decide
  rw [if_pos ⟨by decide, by decide, by rw [hco], by rw [hco]; norm_num⟩, hco, huc]
  norm_num

/-- Witness for `build_item_similarity_spec` at a concrete input:
interactions `{u1: [i1], u2: [i1, i2], u3: [i1, i2]}` with
`MIN_CO_OCCURRENCE = 1` (the spec's Scenario A) emit `(i1, i2)` with
similarity `2/3 = |∩| / |∪|`. -/
theorem build_item_similarity_spec_witness :
    (2 : ℚ) / 3 =
      (coOccurrence [("u1", ["i1"]), ("u2", ["i1", "i2"]), ("u3", ["i1", "i2"])] "i1" "i2" : ℚ) /
        (unionCount [("u1", ["i1"]), ("u2", ["i1", "i2"]), ("u3", ["i1", "i2"])] "i1" "i2" : ℚ) :=
  (build_item_similarity_spec
      [("u1", ["i1"]), ("u2", ["i1", "i2"]), ("u3", ["i1", "i2"])] 1 "i1" "i2").1
    ((2 : ℚ) / 3)
    (by
      rw [build_item_similarity_eq_ite]
      have hco : coOccurrence [("u1", ["i1"]), ("u2", ["i1", "i2"]), ("u3", ["i1", "i2"])]
          "i1" "i2" = 2 := by decide
      have huc : unionCount [("u1", ["i1"]), ("u2", ["i1", "i2"]), ("u3", ["i1", "i2"])]
          "i1" "i2" = 3 := by decide
      rw [if_pos ⟨by decide, by decide, by rw [hco]; norm_num, by rw [hco]; norm_num⟩,
        hco, huc]
      norm_num)

/-- Interactions `{u1: [old], u2: [old, c], u3: [old, c]}`, giving
`sim(c, old) = 2/3` and no entry for the item `new`. -/
def cfTailInteractions : List (UserId × List ItemId) :=
  [("u1", ["old"]), ("u2", ["old", "c"]), ("u3", ["old", "c"])]

/-- C3: `load_user_interactions` returns each user's history sorted newest
first (`.sort(timestamp_field, -1)`), yet
`get_collaborative_filtering_scores` slices
`user_history_item_ids[-CF_USER_HISTORY_LIMIT:]` — the **tail**, i.e. the
**oldest** entries — while its own comment and the spec call for the most
recent ones.  Concretely, with the similarity model built from
`cfTailInteractions` (`MIN_CO_OCCURRENCE = 1`, so `sim(c, old) = 2/3`),
`CF_USER_HISTORY_LIMIT = 1` and the newest-first history `[new, old]`, the
code scores candidate `c` from the oldest item `old` and returns `2/3`,
whereas restricting to the most recent item `new` (as the claim states)
yields no score at all. -/
theorem get_collaborative_filtering_scores_tail_slice :
    get_collaborative_filtering_scores (buildCFModel cfTailInteractions 1) 1
        ["new", "old"] ["c"] = [("c", (2 : ℚ) / 3)]
    ∧ get_collaborative_filtering_scores (buildCFModel cfTailInteractions 1) 1
        ["new"] ["c"] = [] := by
  have hm : buildCFModel cfTailInteractions 1 =
      some ⟨build_item_similarity cfTailInteractions 1, ["old", "c"]⟩ := by
    unfold buildCFModel
    rw [if_neg (by decide), if_neg (by decide)]
    have hall : allInteractedItems cfTailInteractions = ["old", "c"] := by decide
    rw [hall]
  have hsim : build_item_similarity cfTailInteractions 1 "c" "old" = some ((2 : ℚ) / 3) := by
    rw [build_item_similarity_eq_ite]
    have hco : coOccurrence cfTailInteractions "c" "old" = 2 := by decide
    have huc : unionCount cfTailInteractions "c" "old" = 3 := by decide
    rw [if_pos ⟨by decide, by decide, by rw [hco]; norm_num, by rw [hco]; norm_num⟩, hco, huc]
    norm_num
  constructor
  · rw [get_collaborative_filtering_scores.eq_def, hm]
    simp [hsim]
    norm_num
  · rw [get_collaborative_filtering_scores.eq_def, hm]
    simp

/-! ## Batch scoring (`batch/pipeline/final_candidate.py`)

`calculate_initial_scores(user, context, global_candidate_ids,
cluster_candidate_ids, local_candidate_ids)` combines per-pool source
weights (`SOURCE_WEIGHTS["global"/"cluster"/"local"]`), a CF term
(computed only when `CF_WEIGHT > 0` and the user's history is nonempty) and
a CB term (only when `CB_WEIGHT > 0`; the CB scorer of `cb_utils.py` is
abstracted as an opaque score table), keeps items whose combined score is
at least `MIN_SCORE_THRESHOLD`, and — only when more than
`MAX_CANDIDATES_PER_USER` items survive — sorts them by score descending
(a stable sort over the dict insertion order) and truncates.
The iteration order of the Python set
`global_candidate_ids | cluster_candidate_ids | local_candidate_ids` is
hash-dependent; it is abstracted as the duplicate-free list `order`. -/

/-- The batch scoring configuration read by `batch/utils/config_loader.py`. -/
structure BatchConfig where
  wGlobal : ℚ
  wCluster : ℚ
  wLocal : ℚ
  cfWeight : ℚ
  cbWeight : ℚ
  minScoreThreshold : ℚ
  maxCandidatesPerUser : ℕ
  cfUserHistoryLimit : ℕ

/-- The per-source weighted base score (`base_scores[item_id]` in step 1). -/
def sourceBaseScore (cfg : BatchConfig) (globalIds clusterIds localIds : List ItemId)
    (item : ItemId) : ℚ :=
  (if item ∈ globalIds then cfg.wGlobal else 0)
    + (if item ∈ clusterIds then cfg.wCluster else 0)
    + (if item ∈ localIds then cfg.wLocal else 0)

/-- Step 2 of `calculate_initial_scores`: `cf_scores` is the output of
`get_collaborative_filtering_scores` when `CF_WEIGHT > 0` and the user has
a history, and the empty dict otherwise. -/
def cfScoresStep (cfg : BatchConfig) (model : Option CFModel)
    (history : List ItemId) (allCands : List ItemId) : List (ItemId × ℚ) :=
  if 0 < cfg.cfWeight ∧ history ≠ [] then
    get_collaborative_filtering_scores model cfg.cfUserHistoryLimit history allCands
  else []

/-- Step 3: `cb_scores`, guarded by `CB_WEIGHT > 0` and a nonempty history;
the content-based scorer itself (`cb_utils.py`) is passed in as the score
table `cbTable` it would return. -/
def cbScoresStep (cfg : BatchConfig) (cbTable : List (ItemId × ℚ))
    (history : List ItemId) : List (ItemId × ℚ) :=
  if 0 < cfg.cbWeight ∧ history ≠ [] then cbTable else []

/-- Step 4: the combined score of one item
(`base + CF_WEIGHT * cf.get(item, 0) + CB_WEIGHT * cb.get(item, 0)`). -/
def combinedScore (cfg : BatchConfig) (model : Option CFModel)
    (cbTable : List (ItemId × ℚ)) (history : List ItemId)
    (globalIds clusterIds localIds order : List ItemId) (item : ItemId) : ℚ :=
  sourceBaseScore cfg globalIds clusterIds localIds item
    + cfg.cfWeight * lookupScore (cfScoresStep cfg model history order) item
    + cfg.cbWeight * lookupScore (cbScoresStep cfg cbTable history) item

/-- The candidates surviving the `final_score >= MIN_SCORE_THRESHOLD`
filter, in candidate-set iteration order (the keys of `final_scores`). -/
def keptCandidates (cfg : BatchConfig) (model : Option CFModel)
    (cbTable : List (ItemId × ℚ)) (history : List ItemId)
    (globalIds clusterIds localIds order : List ItemId) : List ItemId :=
  order.filter (fun i => cfg.minScoreThreshold ≤
    combinedScore cfg model cbTable history globalIds clusterIds localIds order i)

/-- The `final_scores` dict as its entry list in insertion order. -/
def scoredCandidates (cfg : BatchConfig) (model : Option CFModel)
    (cbTable : List (ItemId × ℚ)) (history : List ItemId)
    (globalIds clusterIds localIds order : List ItemId) : List (ItemId × ℚ) :=
  (keptCandidates cfg model cbTable history globalIds clusterIds localIds order).map
    (fun i => (i, combinedScore cfg model cbTable history globalIds clusterIds localIds order i))

/-- `calculate_initial_scores`, returning the `item → score` dict as its
entry list in insertion order.  `order` is the iteration order of the
candidate-id union set (so it enumerates each candidate exactly once).
Only when more than `MAX_CANDIDATES_PER_USER` entries survive does step 5
sort (stably, by score descending) and truncate. -/
def calculate_initial_scores (cfg : BatchConfig) (model : Option CFModel)
    (cbTable : List (ItemId × ℚ)) (history : List ItemId)
    (globalIds clusterIds localIds order : List ItemId) : List (ItemId × ℚ) :=
  if cfg.maxCandidatesPerUser <
      (scoredCandidates cfg model cbTable history globalIds clusterIds localIds order).length then
    (sortByScoreDesc (scoredCandidates cfg model cbTable history globalIds clusterIds
      localIds order)).take cfg.maxCandidatesPerUser
  else scoredCandidates cfg model cbTable history globalIds clusterIds localIds order

/-- Membership in the result forces the branch facts common to both
branches of the final truncation `if`. -/
lemma mem_calculate_initial_scores {cfg : BatchConfig} {model : Option CFModel}
    {cbTable : List (ItemId × ℚ)} {history : List ItemId}
    {globalIds clusterIds localIds order : List ItemId} {item : ItemId} {s : ℚ}
    (h : (item, s) ∈ calculate_initial_scores cfg model cbTable history
      globalIds clusterIds localIds order) :
    s = combinedScore cfg model cbTable history globalIds clusterIds localIds order item
      ∧ cfg.minScoreThreshold ≤ s := by
  unfold calculate_initial_scores at h
  have hmem : (item, s) ∈ scoredCandidates cfg model cbTable history globalIds clusterIds
      localIds order := by
    by_cases hlen : cfg.maxCandidatesPerUser <
        (scoredCandidates cfg model cbTable history globalIds clusterIds localIds order).length
    · rw [if_pos hlen] at h
      exact (sortByScoreDesc_perm _).subset (List.take_subset _ _ h)
    · rw [if_neg hlen] at h
      exact h
  rw [scoredCandidates, keptCandidates] at hmem
  obtain ⟨i, hi, hpair⟩ := List.mem_map.mp hmem
  obtain ⟨hi', hcond⟩ := List.mem_filter.mp hi
  have h1 : i = item := congrArg Prod.fst hpair
  have h2 : combinedScore cfg model cbTable history globalIds clusterIds localIds order i = s :=
    congrArg Prod.snd hpair
  subst h1
  rw [h2] at hcond ⊢
  exact ⟨rfl, by simpa using hcond⟩

lemma lookupScore_nil (item : ItemId) : lookupScore [] item = 0 := rfl

lemma get_collaborative_filtering_scores_nil_history (model : Option CFModel)
    (limit : ℕ) (cands : List ItemId) :
    get_collaborative_filtering_scores model limit [] cands = [] := by
  cases model with
  | none => rfl
  | some m => simp [get_collaborative_filtering_scores]

lemma cfScoresStep_eq_get (cfg : BatchConfig) (model : Option CFModel)
    (history cands : List ItemId) (hw : 0 < cfg.cfWeight) :
    cfScoresStep cfg model history cands =
      get_collaborative_filtering_scores model cfg.cfUserHistoryLimit history cands := by
  unfold cfScoresStep
  by_cases hh : history = []
  · subst hh
    rw [get_collaborative_filtering_scores_nil_history]
    simp
  · rw [if_pos ⟨hw, hh⟩]

/-- C1: with the CB term inert (`CB_WEIGHT ≤ 0`, the spec's "accepted but
unused" setting) and a nonnegative `CF_WEIGHT`, every entry of the batch
score dict equals the sum of the applicable pool weights plus `CF_WEIGHT`
times the CF score (`0` when the CF map has no entry); every item whose
combined score falls strictly below `MIN_SCORE_THRESHOLD` is dropped; and
with `CF_WEIGHT = 0` the score is exactly the sum of the applicable pool
weights. -/
theorem calculate_initial_scores_spec (cfg : BatchConfig) (model : Option CFModel)
    (cbTable : List (ItemId × ℚ)) (history : List ItemId)
    (globalIds clusterIds localIds order : List ItemId)
    (hcf : 0 ≤ cfg.cfWeight) (hcb : cfg.cbWeight ≤ 0) :
    (∀ item s, (item, s) ∈ calculate_initial_scores cfg model cbTable history
          globalIds clusterIds localIds order →
        s = sourceBaseScore cfg globalIds clusterIds localIds item
            + cfg.cfWeight * lookupScore
              (get_collaborative_filtering_scores model cfg.cfUserHistoryLimit history order)
              item
          ∧ cfg.minScoreThreshold ≤ s)
    ∧ (∀ item, combinedScore cfg model cbTable history globalIds clusterIds localIds
          order item < cfg.minScoreThreshold →
        ∀ s, (item, s) ∉ calculate_initial_scores cfg model cbTable history
          globalIds clusterIds localIds order)
    ∧ (cfg.cfWeight = 0 →
        ∀ item s, (item, s) ∈ calculate_initial_scores cfg model cbTable history
            globalIds clusterIds localIds order →
          s = sourceBaseScore cfg globalIds clusterIds localIds item) := by
  have hcbzero : ∀ item, cfg.cbWeight * lookupScore (cbScoresStep cfg cbTable history) item = 0 := by
    intro item
    unfold cbScoresStep
    rcases lt_or_eq_of_le hcb with hlt | heq
    · rw [if_neg (by rintro ⟨h0, _⟩; exact absurd (lt_trans h0 hlt) (lt_irrefl _))]
      rw [lookupScore_nil, mul_zero]
    · rw [heq, zero_mul]
  have hcfterm : ∀ item, cfg.cfWeight * lookupScore (cfScoresStep cfg model history order) item =
      cfg.cfWeight * lookupScore
        (get_collaborative_filtering_scores model cfg.cfUserHistoryLimit history order) item := by
    intro item
    rcases lt_or_eq_of_le hcf with hlt | heq
    · rw [cfScoresStep_eq_get cfg model history order hlt]
    · rw [← heq, zero_mul, zero_mul]
  have hcomb : ∀ item, combinedScore cfg model cbTable history globalIds clusterIds
      localIds order item =
      sourceBaseScore cfg globalIds clusterIds localIds item
        + cfg.cfWeight * lookupScore
          (get_collaborative_filtering_scores model cfg.cfUserHistoryLimit history order)
          item := by
    intro item
    unfold combinedScore
    rw [hcbzero item, add_zero, hcfterm item]
  refine ⟨?_, ?_, ?_⟩
  · intro item s hmem
    obtain ⟨hs, hth⟩ := mem_calculate_initial_scores hmem
    exact ⟨hs.trans (hcomb item), hth⟩
  · intro item hlow s hmem
    obtain ⟨hs, hth⟩ := mem_calculate_initial_scores hmem
    rw [← hs] at hlow
    exact absurd hth (not_le.mpr hlow)
  · intro hzero item s hmem
    obtain ⟨hs, _⟩ := mem_calculate_initial_scores hmem
    rw [hs, hcomb item, hzero, zero_mul, add_zero]

/-- The config used for concrete checks: the `config_loader.py` default
source weights `0.1`, `CF_WEIGHT = CB_WEIGHT = 0`, threshold `0`,
`MAX_CANDIDATES_PER_USER = 500`, `CF_USER_HISTORY_LIMIT = 100`. -/
def defaultishCfg : BatchConfig :=
  ⟨1 / 10, 1 / 10, 1 / 10, 0, 0, 0, 500, 100⟩

/-- Witness for `calculate_initial_scores_spec`: a single global candidate
`a` under `defaultishCfg` is kept with score exactly `0.1`, the global pool
weight. -/
theorem calculate_initial_scores_spec_witness :
    (1 : ℚ) / 10 = sourceBaseScore defaultishCfg ["a"] [] [] "a"
        + defaultishCfg.cfWeight * lookupScore
          (get_collaborative_filtering_scores none defaultishCfg.cfUserHistoryLimit [] ["a"])
          "a"
      ∧ defaultishCfg.minScoreThreshold ≤ (1 : ℚ) / 10 :=
  (calculate_initial_scores_spec defaultishCfg none [] [] ["a"] [] [] ["a"]
      (by norm_num [defaultishCfg]) (by norm_num [defaultishCfg])).1 "a" ((1 : ℚ) / 10)
    (by
      unfold calculate_initial_scores scoredCandidates keptCandidates combinedScore
        sourceBaseScore cfScoresStep cbScoresStep
      norm_num [defaultishCfg, lookupScore])

/-- The result document built by `generate_candidate_for_user` and handed
to the persistence step (`final_candidate.py:154-165`): its
`curation_list` field is exactly the score dict returned by
`calculate_initial_scores`, and `cust_no` is the numeric customer number
when one can be derived (`none` models the fallback that stores
`user_id_str` instead). -/
structure CandidateRecordDoc where
  custNo : Option Int
  curationList : List (ItemId × ℚ)

/-- `generate_candidate_for_user(user, global_candidates,
cluster_candidates_map, context)`: gathers the per-user pools (local
candidates, the user's cluster entry and the global list, passed here as
the already-resolved id lists), converts them to sets — `order` is the
iteration order of their union — and stores the `calculate_initial_scores`
output verbatim as `curation_list`. -/
def generate_candidate_for_user (cfg : BatchConfig) (model : Option CFModel)
    (cbTable : List (ItemId × ℚ)) (history : List ItemId)
    (globalIds clusterIds localIds order : List ItemId) (custNo : Option Int) :
    CandidateRecordDoc :=
  ⟨custNo, calculate_initial_scores cfg model cbTable history globalIds clusterIds
    localIds order⟩

lemma calculate_initial_scores_invariants (cfg : BatchConfig) (model : Option CFModel)
    (cbTable : List (ItemId × ℚ)) (history : List ItemId)
    (globalIds clusterIds localIds order : List ItemId) (hnd : order.Nodup) :
    ((calculate_initial_scores cfg model cbTable history globalIds clusterIds localIds
        order).map Prod.fst).Nodup
    ∧ (calculate_initial_scores cfg model cbTable history globalIds clusterIds localIds
        order).length ≤ cfg.maxCandidatesPerUser
    ∧ (cfg.maxCandidatesPerUser <
          (keptCandidates cfg model cbTable history globalIds clusterIds localIds order).length →
        ScoreSortedDesc (calculate_initial_scores cfg model cbTable history globalIds
          clusterIds localIds order)) := by
  have hlen_eq : (scoredCandidates cfg model cbTable history globalIds clusterIds localIds
      order).length =
      (keptCandidates cfg model cbTable history globalIds clusterIds localIds order).length :=
    List.length_map _ _
  have hfst : (scoredCandidates cfg model cbTable history globalIds clusterIds localIds
      order).map Prod.fst =
      keptCandidates cfg model cbTable history globalIds clusterIds localIds order := by
    rw [scoredCandidates]
    induction (keptCandidates cfg model cbTable history globalIds clusterIds localIds order) with
    | nil => rfl
    | cons a t ih => simp only [List.map_cons, ih]
  have hkept_nodup : (keptCandidates cfg model cbTable history globalIds clusterIds localIds
      order).Nodup := hnd.filter _
  have hscored_fst_nodup : ((scoredCandidates cfg model cbTable history globalIds clusterIds
      localIds order).map Prod.fst).Nodup := hfst ▸ hkept_nodup
  unfold calculate_initial_scores
  by_cases hbr : cfg.maxCandidatesPerUser <
      (scoredCandidates cfg model cbTable history globalIds clusterIds localIds order).length
  · rw [if_pos hbr]
    refine ⟨?_, ?_, ?_⟩
    · have hperm : ((sortByScoreDesc (scoredCandidates cfg model cbTable history globalIds
          clusterIds localIds order)).map Prod.fst).Perm
          ((scoredCandidates cfg model cbTable history globalIds clusterIds localIds
            order).map Prod.fst) :=
        (sortByScoreDesc_perm _).map Prod.fst
      have hsorted_nodup := hperm.nodup_iff.mpr hscored_fst_nodup
      rw [List.map_take]
      exact hsorted_nodup.sublist (List.take_sublist _ _)
    · rw [List.length_take]
      exact min_le_left _ _
    · intro _
      exact (sortByScoreDesc_sorted _).sublist (List.take_sublist _ _)
  · rw [if_neg hbr]
    refine ⟨hscored_fst_nodup, by omega, ?_⟩
    intro hgt
    rw [← hlen_eq] at hgt
    exact absurd hgt hbr

/-- C2 (amended): the `curation_list` of every record
`generate_candidate_for_user` builds for persistence has
pairwise-distinct item ids and at most `MAX_CANDIDATES_PER_USER` entries,
and it is sorted descending by score **when more than
`MAX_CANDIDATES_PER_USER` items survive the threshold** (the truncation
branch).  Below that size no sorting is performed, and in the truncation
branch ties keep the dict insertion order (the hash-dependent iteration
order of the candidate-id set): the id-ascending tie-break of the
original claim does not exist in the code
(see `curation_list_counterexample`). -/
theorem curation_list_invariants (cfg : BatchConfig) (model : Option CFModel)
    (cbTable : List (ItemId × ℚ)) (history : List ItemId)
    (globalIds clusterIds localIds order : List ItemId) (custNo : Option Int)
    (hnd : order.Nodup) :
    (((generate_candidate_for_user cfg model cbTable history globalIds clusterIds localIds
        order custNo).curationList.map Prod.fst).Nodup)
    ∧ (generate_candidate_for_user cfg model cbTable history globalIds clusterIds localIds
        order custNo).curationList.length ≤ cfg.maxCandidatesPerUser
    ∧ (cfg.maxCandidatesPerUser <
          (keptCandidates cfg model cbTable history globalIds clusterIds localIds order).length →
        ScoreSortedDesc (generate_candidate_for_user cfg model cbTable history globalIds
          clusterIds localIds order custNo).curationList) :=
  calculate_initial_scores_invariants cfg model cbTable history globalIds clusterIds
    localIds order hnd

/-- C2 counterexample, at the level of the persisted record: (a) with
default weights except `local = 0.2` and no truncation, global pool `{a}`
and local pool `{b}` enumerated as `[a, b]` give a record whose
`curation_list` is `[(a, 0.1), (b, 0.2)]` — not sorted descending by
score; (b) with `MAX_CANDIDATES_PER_USER = 1` and the equal-scored global
pool enumerated as `[b, a]`, the stable sort keeps `b` first and the
stored list is `[(b, 0.1)]`, not the id-ascending tie-break
`[(a, 0.1)]`. -/
theorem curation_list_counterexample :
    ¬ ScoreSortedDesc (generate_candidate_for_user ⟨1 / 10, 1 / 10, 1 / 5, 0, 0, 0, 500, 100⟩
        none [] [] ["a"] [] ["b"] ["a", "b"] (some 1)).curationList
    ∧ (generate_candidate_for_user ⟨1 / 10, 1 / 10, 1 / 10, 0, 0, 0, 1, 100⟩
        none [] [] ["b", "a"] [] [] ["b", "a"] (some 1)).curationList = [("b", 1 / 10)] := by
  constructor
  · unfold generate_candidate_for_user calculate_initial_scores scoredCandidates
      keptCandidates combinedScore sourceBaseScore cfScoresStep cbScoresStep
    simp [lookupScore, ScoreSortedDesc, scoreGE]
    norm_num
  · unfold generate_candidate_for_user calculate_initial_scores scoredCandidates
      keptCandidates combinedScore sourceBaseScore cfScoresStep cbScoresStep
    simp [lookupScore, sortByScoreDesc, List.insertionSort, List.orderedInsert, scoreGE]

/-- Witness for `curation_list_invariants` at the concrete input of
`calculate_initial_scores_spec_witness`: the record stored for one global
candidate has distinct ids and at most 500 entries. -/
theorem curation_list_invariants_witness :
    ((generate_candidate_for_user defaultishCfg none [] [] ["a"] [] [] ["a"]
        (some 1001)).curationList.map Prod.fst).Nodup
    ∧ (generate_candidate_for_user defaultishCfg none [] [] ["a"] [] [] ["a"]
        (some 1001)).curationList.length ≤ defaultishCfg.maxCandidatesPerUser :=
  ⟨(curation_list_invariants defaultishCfg none [] [] ["a"] [] [] ["a"] (some 1001)
      (by decide)).1,
   (curation_list_invariants defaultishCfg none [] [] ["a"] [] [] ["a"] (some 1001)
      (by decide)).2.1⟩

/-! ## Online rules (`api/rules/pre_filter_rules.py`, `api/rules/post_reorder_rules.py`)

Each rule's `apply(user_context, ...)` reads its inputs from the request
context; those context fields become explicit parameters here.  Sets
(`seen_items_set`, the four stock sets) are abstracted as duplicate-free
lists, membership being all the rules use.  `content_meta[item].label` is
the partial map `label : ItemId → Option StockCode` (`.get` returning
`None` for missing meta or missing label). -/

abbrev StockCode := String

/-- `ExcludeSeenItemsRule.apply`: returns `candidates` unchanged when
`seen_items_set` is empty/missing, else keeps candidates not in the set. -/
def exclude_seen_items (seenItems : List ItemId) (candidates : List ItemId) : List ItemId :=
  if seenItems = [] then candidates
  else candidates.filter (fun c => c ∉ seenItems)

/-- C6: `ExcludeSeenItems` returns exactly the input candidates that are
not in `seen_items`, in their original relative order; it is the identity
when `seen_items` is empty; and it is idempotent. -/
theorem exclude_seen_items_spec (seenItems candidates : List ItemId) :
    exclude_seen_items seenItems candidates = candidates.filter (fun c => c ∉ seenItems)
    ∧ (seenItems = [] → exclude_seen_items seenItems candidates = candidates)
    ∧ exclude_seen_items seenItems (exclude_seen_items seenItems candidates) =
        exclude_seen_items seenItems candidates := by
  have hfilter : exclude_seen_items seenItems candidates =
      candidates.filter (fun c => c ∉ seenItems) := by
    unfold exclude_seen_items
    by_cases hs : seenItems = []
    · rw [if_pos hs, hs]
      symm
      apply List.filter_eq_self.mpr
      intro a _
      simp
    · rw [if_neg hs]
  refine ⟨hfilter, ?_, ?_⟩
  · intro hs
    unfold exclude_seen_items
    rw [if_pos hs]
  · unfold exclude_seen_items
    by_cases hs : seenItems = []
    · rw [if_pos hs, if_pos hs]
    · rw [if_neg hs, if_neg hs]
      apply List.filter_eq_self.mpr
      intro a ha
      exact (List.mem_filter.mp ha).2

/-- Witness for `exclude_seen_items_spec` at a concrete input: the spec's
Scenario B candidate list with empty `seen_items` is returned unchanged. -/
theorem exclude_seen_items_spec_witness :
    exclude_seen_items [] ["a", "b", "c"] = ["a", "b", "c"] :=
  (exclude_seen_items_spec [] ["a", "b", "c"]).2.1 rfl

/-- The two return fields fetched per stock from the `screen-*` index
(`1m_returns`, `1d_returns`; `None` when absent). -/
structure StockReturns where
  oneMonth : Option ℚ
  oneDay : Option ℚ

/-- `val = r.get("1m_returns")`, falling back to `r.get("1d_returns")`
when the former is `None`. -/
def returnValue (r : StockReturns) : Option ℚ :=
  match r.oneMonth with
  | some v => some v
  | none => r.oneDay

/-- The `for stock in owned` loop of `BoostTopReturnStockRule.apply`:
carries `(top_stock, max_ret)` (`none` models the initial
`top_stock = None, max_ret = -inf` state) and replaces it when a stock's
return value is present and strictly larger. -/
def topStockFold (returns : StockCode → StockReturns) :
    Option (StockCode × ℚ) → List StockCode → Option (StockCode × ℚ)
  | acc, [] => acc
  | acc, s :: rest =>
    topStockFold returns
      (match returnValue (returns s) with
       | none => acc
       | some v =>
         match acc with
         | none => some (s, v)
         | some (t, mv) => if mv < v then some (s, v) else some (t, mv))
      rest

/-- `BoostTopReturnStockRule.apply` (`BOOST_FACTOR = 2.0`): when a top
returning owned stock exists, double the score of every item labelled with
it and stably re-sort descending; otherwise return the input unchanged. -/
def boost_top_return_stock (owned : List StockCode) (returns : StockCode → StockReturns)
    (label : ItemId → Option StockCode) (items : List (ItemId × ℚ)) :
    List (ItemId × ℚ) :=
  match topStockFold returns none owned with
  | none => items
  | some (top, _) =>
    sortByScoreDesc (items.map (fun p =>
      if label p.1 = some top then (p.1, p.2 * 2) else p))

lemma topStockFold_acc_le (returns : StockCode → StockReturns) :
    ∀ (owned : List StockCode) (t0 : StockCode) (v0 : ℚ) (t : StockCode) (mv : ℚ),
      topStockFold returns (some (t0, v0)) owned = some (t, mv) → v0 ≤ mv := by
  intro owned
  induction owned with
  | nil =>
    intro t0 v0 t mv h
    simp only [topStockFold, Option.some.injEq, Prod.mk.injEq] at h
    exact le_of_eq h.2
  | cons s rest ih =>
    intro t0 v0 t mv h
    simp only [topStockFold] at h
    cases hrv : returnValue (returns s) with
    | none =>
      rw [hrv] at h
      exact ih t0 v0 t mv h
    | some v =>
      rw [hrv] at h
      dsimp only at h
      by_cases hlt : v0 < v
      · rw [if_pos hlt] at h
        exact le_of_lt (lt_of_lt_of_le hlt (ih s v t mv h))
      · rw [if_neg hlt] at h
        exact ih t0 v0 t mv h

lemma topStockFold_mem (returns : StockCode → StockReturns) :
    ∀ (owned : List StockCode) (acc : Option (StockCode × ℚ)) (t : StockCode) (mv : ℚ),
      topStockFold returns acc owned = some (t, mv) →
        acc = some (t, mv) ∨ (t ∈ owned ∧ returnValue (returns t) = some mv) := by
  intro owned
  induction owned with
  | nil =>
    intro acc t mv h
    exact Or.inl h
  | cons s rest ih =>
    intro acc t mv h
    simp only [topStockFold] at h
    cases hrv : returnValue (returns s) with
    | none =>
      rw [hrv] at h
      rcases ih _ t mv h with hacc | ⟨hmem, hval⟩
      · exact Or.inl hacc
      · exact Or.inr ⟨List.mem_cons_of_mem s hmem, hval⟩
    | some v =>
      rw [hrv] at h
      dsimp only at h
      cases acc with
      | none =>
        rcases ih _ t mv h with hacc | ⟨hmem, hval⟩
        · simp only [Option.some.injEq, Prod.mk.injEq] at hacc
          exact Or.inr ⟨hacc.1 ▸ List.mem_cons_self s rest, by rw [← hacc.1, hrv, hacc.2]⟩
        · exact Or.inr ⟨List.mem_cons_of_mem s hmem, hval⟩
      | some p =>
        obtain ⟨t0, mv0⟩ := p
        dsimp only at h
        by_cases hlt : mv0 < v
        · rw [if_pos hlt] at h
          rcases ih _ t mv h with hacc | ⟨hmem, hval⟩
          · simp only [Option.some.injEq, Prod.mk.injEq] at hacc
            exact Or.inr ⟨hacc.1 ▸ List.mem_cons_self s rest, by rw [← hacc.1, hrv, hacc.2]⟩
          · exact Or.inr ⟨List.mem_cons_of_mem s hmem, hval⟩
        · rw [if_neg hlt] at h
          rcases ih _ t mv h with hacc | ⟨hmem, hval⟩
          · exact Or.inl hacc
          · exact Or.inr ⟨List.mem_cons_of_mem s hmem, hval⟩

lemma topStockFold_max (returns : StockCode → StockReturns) :
    ∀ (owned : List StockCode) (acc : Option (StockCode × ℚ)) (t : StockCode) (mv : ℚ),
      topStockFold returns acc owned = some (t, mv) →
        ∀ s ∈ owned, ∀ v, returnValue (returns s) = some v → v ≤ mv := by
  intro owned
  induction owned with
  | nil =>
    intro acc t mv _ s hs
    exact absurd hs (List.not_mem_nil s)
  | cons s0 rest ih =>
    intro acc t mv h s hs v hv
    simp only [topStockFold] at h
    rcases List.mem_cons.mp hs with rfl | hrest
    · rw [hv] at h
      dsimp only at h
      cases acc with
      | none => exact topStockFold_acc_le returns rest s v t mv h
      | some p =>
        obtain ⟨t0, mv0⟩ := p
        dsimp only at h
        by_cases hlt : mv0 < v
        · rw [if_pos hlt] at h
          exact topStockFold_acc_le returns rest s v t mv h
        · rw [if_neg hlt] at h
          exact le_trans (not_lt.mp hlt) (topStockFold_acc_le returns rest t0 mv0 t mv h)
    · cases hrv : returnValue (returns s0) with
      | none =>
        rw [hrv] at h
        exact ih _ t mv h s hrest v hv
      | some v0 =>
        rw [hrv] at h
        exact ih _ t mv h s hrest v hv

/-- C7: when `owned_stocks` is empty (or no owned stock has any return
value) the rule returns its input unchanged; otherwise the selected stock
is an owned stock whose return value (1-month, falling back to 1-day) is
maximal among all owned stocks, and the output is a permutation of the
input with exactly the items labelled by that stock having their scores
multiplied by `2.0` and every other score unchanged (the rule re-sorts by
score descending afterwards). -/
theorem boost_top_return_stock_spec (owned : List StockCode)
    (returns : StockCode → StockReturns) (label : ItemId → Option StockCode)
    (items : List (ItemId × ℚ)) :
    (owned = [] → boost_top_return_stock owned returns label items = items)
    ∧ (topStockFold returns none owned = none →
        boost_top_return_stock owned returns label items = items)
    ∧ (∀ top mv, topStockFold returns none owned = some (top, mv) →
        top ∈ owned ∧ returnValue (returns top) = some mv
        ∧ (∀ s ∈ owned, ∀ v, returnValue (returns s) = some v → v ≤ mv)
        ∧ (boost_top_return_stock owned returns label items).Perm
            (items.map (fun p =>
              if label p.1 = some top then (p.1, p.2 * 2) else p))) := by
  refine ⟨?_, ?_, ?_⟩
  · intro howned
    subst howned
    rfl
  · intro htop
    unfold boost_top_return_stock
    rw [htop]
  · intro top mv htop
    have hmem := topStockFold_mem returns owned none top mv htop
    rcases hmem with hacc | ⟨hmemo, hval⟩
    · exact absurd hacc (by simp)
    refine ⟨hmemo, hval, topStockFold_max returns owned none top mv htop, ?_⟩
    unfold boost_top_return_stock
    rw [htop]
    exact sortByScoreDesc_perm _

/-- Witness for `boost_top_return_stock_spec` (Scenario D shape): with
owned stocks `SAMS` (1-month return `0.05`) and `KAK` (1-month return
`0.10`), the fold selects `KAK`, which is owned, carries its own return
value, and dominates every owned stock's return. -/
theorem boost_top_return_stock_spec_witness :
    "KAK" ∈ ["SAMS", "KAK"]
    ∧ returnValue (if "KAK" = "SAMS" then ⟨some (1 / 20), none⟩
        else StockReturns.mk (some (1 / 10)) none) = some ((1 : ℚ) / 10)
    ∧ (∀ s ∈ ["SAMS", "KAK"], ∀ v,
        returnValue (if s = "SAMS" then ⟨some (1 / 20), none⟩
          else StockReturns.mk (some (1 / 10)) none) = some v → v ≤ (1 : ℚ) / 10)
    ∧ (boost_top_return_stock ["SAMS", "KAK"]
        (fun s => if s = "SAMS" then ⟨some (1 / 20), none⟩
          else StockReturns.mk (some (1 / 10)) none)
        (fun i => if i = "p" then some "SAMS" else some "KAK")
        [("p", 1), ("q", 1)]).Perm
        ([("p", 1), ("q", 1)].map (fun p =>
          if (fun i => if i = "p" then some "SAMS" else some "KAK") p.1 = some "KAK"
          then (p.1, p.2 * 2) else p)) :=
  (boost_top_return_stock_spec ["SAMS", "KAK"]
      (fun s => if s = "SAMS" then ⟨some (1 / 20), none⟩
        else StockReturns.mk (some (1 / 10)) none)
      (fun i => if i = "p" then some "SAMS" else some "KAK")
      [("p", 1), ("q", 1)]).2.2 "KAK" ((1 : ℚ) / 10)
    (by
      simp [topStockFold, returnValue]
      norm_num)

/-- `content_meta.get(item, {}).get("label") in stock_set`: a missing
label (`None`) is in no set. -/
def labelMem (lbl : Option StockCode) (stocks : List StockCode) : Bool :=
  match lbl with
  | some s => decide (s ∈ stocks)
  | none => false

/-- The sequential `boost = max(boost, WEIGHTS[...])` accumulation of
`BoostUserStocksRule.apply` (`owned 1.5, recent 1.3, group1 1.2,
onboarding 1.1`, starting from `1.0`). -/
def userStockBoostFactor (owned recent group1 onboarding : List StockCode)
    (lbl : Option StockCode) : ℚ :=
  let b1 : ℚ := 1
  let b2 := if labelMem lbl owned then max b1 (3 / 2) else b1
  let b3 := if labelMem lbl recent then max b2 (13 / 10) else b2
  let b4 := if labelMem lbl group1 then max b3 (6 / 5) else b3
  if labelMem lbl onboarding then max b4 (11 / 10) else b4

/-- `BoostUserStocksRule.apply`: a no-op when all four stock sets are
empty; otherwise each item's score is multiplied by its boost factor when
that exceeds `1.0` (and appended unchanged otherwise) and the list is
stably re-sorted by score descending. -/
def boost_user_stocks (owned recent group1 onboarding : List StockCode)
    (label : ItemId → Option StockCode) (items : List (ItemId × ℚ)) :
    List (ItemId × ℚ) :=
  if owned = [] ∧ recent = [] ∧ group1 = [] ∧ onboarding = [] then items
  else
    sortByScoreDesc (items.map (fun p =>
      if 1 < userStockBoostFactor owned recent group1 onboarding (label p.1) then
        (p.1, p.2 * userStockBoostFactor owned recent group1 onboarding (label p.1))
      else p))

lemma one_le_userStockBoostFactor (owned recent group1 onboarding : List StockCode)
    (lbl : Option StockCode) :
    1 ≤ userStockBoostFactor owned recent group1 onboarding lbl := by
  unfold userStockBoostFactor
  split_ifs <;> simp_all [le_max_iff]

lemma userStockBoostFactor_eq_max (owned recent group1 onboarding : List StockCode)
    (lbl : Option StockCode) :
    userStockBoostFactor owned recent group1 onboarding lbl =
      max (max (max (max 1 (if labelMem lbl owned then 3 / 2 else 1))
        (if labelMem lbl recent then 13 / 10 else 1))
        (if labelMem lbl group1 then 6 / 5 else 1))
        (if labelMem lbl onboarding then 11 / 10 else 1) := by
  unfold userStockBoostFactor
  cases h1 : labelMem lbl owned <;> cases h2 : labelMem lbl recent <;>
    cases h3 : labelMem lbl group1 <;> cases h4 : labelMem lbl onboarding <;>
    simp [max_def] <;> norm_num

lemma boost_map_eq (owned recent group1 onboarding : List StockCode)
    (label : ItemId → Option StockCode) (p : ItemId × ℚ) :
    (if 1 < userStockBoostFactor owned recent group1 onboarding (label p.1) then
        (p.1, p.2 * userStockBoostFactor owned recent group1 onboarding (label p.1))
      else p) =
      (p.1, p.2 * userStockBoostFactor owned recent group1 onboarding (label p.1)) := by
  by_cases h : 1 < userStockBoostFactor owned recent group1 onboarding (label p.1)
  · rw [if_pos h]
  · rw [if_neg h]
    have : userStockBoostFactor owned recent group1 onboarding (label p.1) = 1 :=
      le_antisymm (not_lt.mp h) (one_le_userStockBoostFactor _ _ _ _ _)
    rw [this, mul_one]

/-- C8: every output of `BoostUserStocks` is a permutation of the input
with each score multiplied by the item's boost factor; that factor is the
maximum of the applicable per-set factors (`owned 1.5, recent 1.3,
group1 1.2, onboarding 1.1`, default `1`); a label in none of the sets
leaves the score unchanged (factor `1`); and on the spec's Scenario C
input (`x` labelled by an owned stock, `y` by a recent stock, both scored
`1.0`) the output is `[(x, 1.5), (y, 1.3)]`. -/
theorem boost_user_stocks_spec (owned recent group1 onboarding : List StockCode)
    (label : ItemId → Option StockCode) (items : List (ItemId × ℚ)) :
    ((boost_user_stocks owned recent group1 onboarding label items).Perm
        (items.map (fun p =>
          (p.1, p.2 * userStockBoostFactor owned recent group1 onboarding (label p.1)))))
    ∧ (∀ lbl, userStockBoostFactor owned recent group1 onboarding lbl =
        max (max (max (max 1 (if labelMem lbl owned then 3 / 2 else 1))
          (if labelMem lbl recent then 13 / 10 else 1))
          (if labelMem lbl group1 then 6 / 5 else 1))
          (if labelMem lbl onboarding then 11 / 10 else 1))
    ∧ (∀ lbl, labelMem lbl owned = false → labelMem lbl recent = false →
        labelMem lbl group1 = false → labelMem lbl onboarding = false →
        userStockBoostFactor owned recent group1 onboarding lbl = 1)
    ∧ boost_user_stocks ["SAMS"] ["KAK"] [] []
        (fun i => if i = "x" then some "SAMS" else some "KAK")
        [("x", 1), ("y", 1)] = [("x", 3 / 2), ("y", 13 / 10)] := by
  refine ⟨?_, userStockBoostFactor_eq_max owned recent group1 onboarding, ?_, ?_⟩
  · have hmapeq : items.map (fun p =>
        if 1 < userStockBoostFactor owned recent group1 onboarding (label p.1) then
          (p.1, p.2 * userStockBoostFactor owned recent group1 onboarding (label p.1))
        else p) =
        items.map (fun p =>
          (p.1, p.2 * userStockBoostFactor owned recent group1 onboarding (label p.1))) :=
      List.map_congr_left (fun p _ => boost_map_eq owned recent group1 onboarding label p)
    unfold boost_user_stocks
    by_cases hempty : owned = [] ∧ recent = [] ∧ group1 = [] ∧ onboarding = []
    · rw [if_pos hempty]
      obtain ⟨h1, h2, h3, h4⟩ := hempty
      subst h1; subst h2; subst h3; subst h4
      have : items.map (fun p =>
          (p.1, p.2 * userStockBoostFactor [] [] [] [] (label p.1))) = items := by
        apply List.map_congr_left ?_ |>.trans (List.map_id items)
        intro p _
        simp [userStockBoostFactor, labelMem]
        cases label p.1 <;> simp
      rw [this]
    · rw [if_neg hempty, hmapeq]
      exact sortByScoreDesc_perm _
  · intro lbl h1 h2 h3 h4
    simp [userStockBoostFactor, h1, h2, h3, h4]
  · unfold boost_user_stocks
    rw [if_neg (by simp)]
    simp [userStockBoostFactor, labelMem, sortByScoreDesc, List.insertionSort,
      List.orderedInsert, scoreGE, max_def]
    norm_num

/-- Witness for `boost_user_stocks_spec`: a label in none of the four
(empty) sets has boost factor exactly `1`. -/
theorem boost_user_stocks_spec_witness :
    userStockBoostFactor [] [] [] [] (some "X") = 1 :=
  (boost_user_stocks_spec [] [] [] [] (fun _ => none) []).2.2.1 (some "X")
    rfl rfl rfl rfl

/-- `AddScoreNoiseRule.apply` (`NOISE_LEVEL = 0.01`): adds an independent
`random.uniform(0, 0.01)` draw to each score and stably re-sorts
descending.  The draws are abstracted as `noise i`, the value drawn for
the item at position `i` of the input list. -/
def add_score_noise (noise : ℕ → ℚ) (items : List (ItemId × ℚ)) : List (ItemId × ℚ) :=
  sortByScoreDesc (items.enum.map (fun ip => (ip.2.1, ip.2.2 + noise ip.1)))

lemma map_fst_enumFrom_noise (noise : ℕ → ℚ) :
    ∀ (l : List (ItemId × ℚ)) (n : ℕ),
      ((l.enumFrom n).map (fun ip => (ip.2.1, ip.2.2 + noise ip.1))).map Prod.fst =
        l.map Prod.fst := by
  intro l
  induction l with
  | nil => intro n; rfl
  | cons a t ih =>
    intro n
    simp only [List.enumFrom_cons, List.map_cons, ih (n + 1)]

/-- C9: for every noise assignment, `AddScoreNoise` returns a permutation
of the input ids (no item removed or duplicated), and the output pairs are
a permutation of the input pairs with the position-wise noise added to
each score. -/
theorem add_score_noise_spec (noise : ℕ → ℚ) (items : List (ItemId × ℚ)) :
    ((add_score_noise noise items).map Prod.fst).Perm (items.map Prod.fst)
    ∧ (add_score_noise noise items).Perm
        (items.enum.map (fun ip => (ip.2.1, ip.2.2 + noise ip.1))) := by
  have hperm := sortByScoreDesc_perm (items.enum.map (fun ip => (ip.2.1, ip.2.2 + noise ip.1)))
  refine ⟨?_, hperm⟩
  have hfst : (items.enum.map (fun ip => (ip.2.1, ip.2.2 + noise ip.1))).map Prod.fst =
      items.map Prod.fst := map_fst_enumFrom_noise noise items 0
  have hstep := hperm.map Prod.fst
  rw [hfst] at hstep
  exact hstep

/-! ## Online ranking engine (`api/services/recommendation_service.py`)

`get_live_recommendations` gathers the user context and the stored
candidates, applies the pre-ranking rules (`ExcludeSeenItems`), reattaches
the stored scores to the surviving ids, applies the post-ranking rules
(`BoostUserStocks`, `BoostTopReturnStock`, `AddScoreNoise` in declared
order), sorts by score descending and truncates to
`RECOMMENDATION_COUNT = 20`.  The context fetches and the noise draws are
parameters; DB reads are modelled by an `OnlineDB` value. -/

/-- The document-store state the online read path consults.
`userCandidate` returns a customer's `curation_list` dict as its entry
list (`none` when the document is absent or `curation_list` is not a
dict); `curationHist` and `curation` list the `_id`s of those collections
sorted by `created_at` descending — the order of the fallback query. -/
structure OnlineDB where
  userCandidate : String → Option (List (ItemId × ℚ))
  curationHist : List ItemId
  curation : List ItemId

/-- `fetch_initial_candidates_with_scores(cust_no, db)`: the stored
`curation_list` entries; when none result, fall back to the up-to-100 most
recent `curation_hist` documents, then `curation` documents, each scored
`0.0`; empty only when all three sources are empty. -/
def fetch_initial_candidates_with_scores (db : OnlineDB) (custNo : String) :
    List (ItemId × ℚ) :=
  if (db.userCandidate custNo).getD [] ≠ [] then (db.userCandidate custNo).getD []
  else if db.curationHist.take 100 ≠ [] then
    (db.curationHist.take 100).map (fun i => (i, 0))
  else if db.curation.take 100 ≠ [] then
    (db.curation.take 100).map (fun i => (i, 0))
  else []

/-- The per-request context assembled by `fetch_user_context_data` plus the
`content_meta` label map added before the post-ranking stage. -/
structure RequestContext where
  seenItems : List ItemId
  owned : List StockCode
  recent : List StockCode
  group1 : List StockCode
  onboarding : List StockCode
  returns : StockCode → StockReturns
  label : ItemId → Option StockCode

/-- `get_live_recommendations(cust_no)`. -/
def get_live_recommendations (db : OnlineDB) (ctx : RequestContext) (noise : ℕ → ℚ)
    (custNo : String) : List (ItemId × ℚ) :=
  if fetch_initial_candidates_with_scores db custNo = [] then []
  else
    if exclude_seen_items ctx.seenItems
        ((fetch_initial_candidates_with_scores db custNo).map Prod.fst) = [] then []
    else
      (sortByScoreDesc (add_score_noise noise
        (boost_top_return_stock ctx.owned ctx.returns ctx.label
          (boost_user_stocks ctx.owned ctx.recent ctx.group1 ctx.onboarding ctx.label
            ((fetch_initial_candidates_with_scores db custNo).filter
              (fun p => p.1 ∈ exclude_seen_items ctx.seenItems
                ((fetch_initial_candidates_with_scores db custNo).map Prod.fst))))))).take 20

/-- A store with no candidate record for anyone, one `curation_hist`
document `h1`, and nothing in `curation`. -/
def fallbackOnlyDB : OnlineDB := ⟨fun _ => none, ["h1"], []⟩

/-- A request context with nothing seen, no stock sets, no returns and no
content labels. -/
def emptyRequestContext : RequestContext :=
  ⟨[], [], [], [], [], fun _ => ⟨none, none⟩, fun _ => none⟩

/-- C5 counterexample: customer `1001` has **no** `CandidateRecord`, yet
the engine does not return an empty list: `fetch_initial_candidates_with_scores`
falls back to the most recent `curation_hist` documents with score `0.0`,
and the request returns `[(h1, 0)]`. -/
theorem get_live_recommendations_fallback_counterexample :
    fallbackOnlyDB.userCandidate "1001" = none
    ∧ get_live_recommendations fallbackOnlyDB emptyRequestContext (fun _ => 0) "1001" =
        [("h1", 0)] := by
  constructor
  · rfl
  · have hfetch : fetch_initial_candidates_with_scores fallbackOnlyDB "1001" = [("h1", 0)] := by
      unfold fetch_initial_candidates_with_scores fallbackOnlyDB
      simp
    unfold get_live_recommendations
    rw [hfetch]
    simp [exclude_seen_items, emptyRequestContext, boost_user_stocks,
      boost_top_return_stock, topStockFold, add_score_noise, sortByScoreDesc,
      List.insertionSort, List.orderedInsert]

/-- C5 (amended): an absent (or empty) `CandidateRecord` does **not** by
itself make the engine return empty — `fetch_initial_candidates_with_scores`
first falls back to the most recent `curation_hist`, then `curation`,
documents at score `0.0` (see
`get_live_recommendations_fallback_counterexample`).  When those fallback
collections are also empty, the engine does return the empty list, as a
normal (status-OK) result rather than an error.  (The fallback path gives
no nonempty guarantee either: the pre-filter may still empty the reply.) -/
theorem get_live_recommendations_empty (db : OnlineDB) (ctx : RequestContext)
    (noise : ℕ → ℚ) (custNo : String)
    (hrec : db.userCandidate custNo = none ∨ db.userCandidate custNo = some [])
    (hhist : db.curationHist = []) (hcur : db.curation = []) :
    get_live_recommendations db ctx noise custNo = [] := by
  have hfetch : fetch_initial_candidates_with_scores db custNo = [] := by
    unfold fetch_initial_candidates_with_scores
    have hdoc : (db.userCandidate custNo).getD [] = [] := by
      rcases hrec with h | h <;> rw [h] <;> rfl
    rw [hdoc, hhist, hcur]
    simp
  unfold get_live_recommendations
  rw [hfetch]
  simp

/-- Witness for `get_live_recommendations_empty`: a fully empty store
yields the empty recommendation list. -/
theorem get_live_recommendations_empty_witness :
    get_live_recommendations ⟨fun _ => none, [], []⟩ emptyRequestContext (fun _ => 0)
      "1001" = [] :=
  get_live_recommendations_empty ⟨fun _ => none, [], []⟩ emptyRequestContext (fun _ => 0)
    "1001" (Or.inl rfl) rfl rfl

/-! ## Persistence (`batch/utils/db_manager.py`)

`save_results(results, db, collection_name, batch_size, max_retries)`
validates the rows, splits them into batches and issues one unordered
`bulk_write` of `UpdateOne(filter={'cust_no': ...}, update={'$set':
{'curation_list': ..., 'modi_dt': now}, '$setOnInsert': {'create_dt':
now}}, upsert=True)` per row, retrying each batch with exponential
backoff.  Batching preserves the row order across batches, and within a
batch write order is observable only for duplicate `cust_no`s, so the
resulting collection state is the left fold of the upserts in row order.
Retries re-issue the same idempotent operations; the local-file fallback
(taken only when MongoDB keeps failing) does not touch the collection.
Timestamps are abstracted as a single `now` per save call. -/

/-- One candidate-generation result row handed to `save_results`
(`{'cust_no': str, 'curation_list': [{'curation_id': str, 'score': float}]}`). -/
structure CandidateResult where
  custNo : String
  curationList : List (ItemId × ℚ)

/-- `validate_candidate_results`: a row survives iff its `cust_no` is a
truthy string and its `curation_list` has at least one entry (well-typed
entries are kept verbatim; rows of non-dict shape are outside the
embedding's domain). -/
def validate_candidate_results (results : List CandidateResult) : List CandidateResult :=
  results.filter (fun r => r.custNo ≠ "" ∧ r.curationList ≠ [])

/-- A stored `user_candidate` document (timestamps as abstract instants). -/
structure StoredCandidateDoc where
  curationList : List (ItemId × ℚ)
  createDt : ℕ
  modiDt : ℕ

/-- The `user_candidate` collection, keyed by `cust_no`. -/
def UserCandidateCollection := String → Option StoredCandidateDoc

/-- One `UpdateOne(..., upsert=True)`: `$set` writes `curation_list` and
`modi_dt` whether or not a document matches; `$setOnInsert` writes
`create_dt` only when the write inserts a new document. -/
def upsertOne (now : ℕ) (col : UserCandidateCollection) (r : CandidateResult) :
    UserCandidateCollection :=
  fun k =>
    if k = r.custNo then
      match col r.custNo with
      | some doc => some ⟨r.curationList, doc.createDt, now⟩
      | none => some ⟨r.curationList, now, now⟩
    else col k

/-- `save_results` on its MongoDB-success path: validate, then apply the
upserts in row order. -/
def save_results (now : ℕ) (col : UserCandidateCollection)
    (results : List CandidateResult) : UserCandidateCollection :=
  (validate_candidate_results results).foldl (upsertOne now) col

/-- The last row of `results` whose `cust_no` is `k` — the write that wins
the upsert sequence for that key. -/
def lastResultFor : List CandidateResult → String → Option CandidateResult
  | [], _ => none
  | r :: rs, k =>
    match lastResultFor rs k with
    | some r' => some r'
    | none => if r.custNo = k then some r else none

lemma foldl_upsertOne_apply (now : ℕ) :
    ∀ (rs : List CandidateResult) (col : UserCandidateCollection) (k : String),
      rs.foldl (upsertOne now) col k =
        match lastResultFor rs k with
        | some r => some ⟨r.curationList,
            (match col k with | some d => d.createDt | none => now), now⟩
        | none => col k := by
  intro rs
  induction rs with
  | nil => intro col k; rfl
  | cons r rest ih =>
    intro col k
    rw [List.foldl_cons, ih (upsertOne now col r) k]
    cases hlast : lastResultFor rest k with
    | some r' =>
      have hcons : lastResultFor (r :: rest) k = some r' := by
        unfold lastResultFor
        rw [hlast]
      rw [hcons]
      by_cases hk : k = r.custNo
      · subst hk
        unfold upsertOne
        rw [if_pos rfl]
        cases col r.custNo <;> rfl
      · unfold upsertOne
        rw [if_neg hk]
    | none =>
      have hcons : lastResultFor (r :: rest) k =
          if r.custNo = k then some r else none := by
        unfold lastResultFor
        rw [hlast]
      rw [hcons]
      by_cases hk : r.custNo = k
      · rw [if_pos hk]
        subst hk
        unfold upsertOne
        rw [if_pos rfl]
        cases col r.custNo <;> rfl
      · rw [if_neg hk]
        unfold upsertOne
        rw [if_neg (fun h => hk h.symm)]

/-- C10: `save_results` upserts each surviving row keyed by `cust_no`
(last write wins): on an insert the new document carries the row's
`curation_list` with `create_dt = modi_dt = now`; on an update of an
existing document `modi_dt` is set to `now`, `curation_list` is replaced
and `create_dt` is left unchanged; keys no row writes keep their previous
document; and saving the same rows twice leaves exactly the same stored
`curation_list` for every `cust_no` (idempotent upsert). -/
theorem save_results_spec (now now' : ℕ) (col : UserCandidateCollection)
    (results : List CandidateResult) :
    (∀ k r, lastResultFor (validate_candidate_results results) k = some r →
        (col k = none → save_results now col results k = some ⟨r.curationList, now, now⟩)
        ∧ (∀ d, col k = some d →
            save_results now col results k = some ⟨r.curationList, d.createDt, now⟩))
    ∧ (∀ k, lastResultFor (validate_candidate_results results) k = none →
        save_results now col results k = col k)
    ∧ (∀ k, Option.map StoredCandidateDoc.curationList
          (save_results now' (save_results now col results) results k) =
        Option.map StoredCandidateDoc.curationList (save_results now col results k)) := by
  refine ⟨?_, ?_, ?_⟩
  · intro k r hlast
    constructor
    · intro hnone
      unfold save_results
      rw [foldl_upsertOne_apply now _ col k, hlast, hnone]
    · intro d hsome
      unfold save_results
      rw [foldl_upsertOne_apply now _ col k, hlast, hsome]
  · intro k hlast
    unfold save_results
    rw [foldl_upsertOne_apply now _ col k, hlast]
  · intro k
    unfold save_results
    rw [foldl_upsertOne_apply now' _ _ k, foldl_upsertOne_apply now _ col k]
    cases hlast : lastResultFor (validate_candidate_results results) k with
    | some r =>
      cases col k <;> rfl
    | none => rfl

/-- Witness for `save_results_spec`: inserting the single row
`{cust_no: "7", curation_list: [("a", 1)]}` into an empty collection at
instant `5` stores that list with `create_dt = modi_dt = 5`. -/
theorem save_results_spec_witness :
    save_results 5 (fun _ => none) [⟨"7", [("a", 1)]⟩] "7" =
      some ⟨[("a", 1)], 5, 5⟩ :=
  ((save_results_spec 5 5 (fun _ => none) [⟨"7", [("a", 1)]⟩]).1 "7" ⟨"7", [("a", 1)]⟩
    (by simp [lastResultFor, validate_candidate_results])).1 rfl

end SimpleRS
